import Mathlib

/-!
Verification of the bear-rust pipeline orchestrator against its
natural-language specification.  The definitions below are shallow
embeddings of the Rust source (src/claude_code_client.rs and
src/ui/{app,coding,session_naming}.rs); theorems settle the spec's
claims about them.
-/

namespace Bear

/-! ## JSON values (model of serde_json::Value) -/

/-- Model of `serde_json::Value`: null, booleans, numbers, strings,
arrays and objects (an object is a list of key/value fields). -/
inductive Json where
  | null
  | bool (b : Bool)
  | num (n : Int)
  | str (s : String)
  | arr (elements : List Json)
  | obj (fields : List (String × Json))

/-- First field with the given key, if any. -/
def lookupField : List (String × Json) → String → Option Json
  | [], _ => none
  | (k, v) :: rest, key => if k = key then some v else lookupField rest key

/-- `Value::get(key)`: field of an object, `None` on non-objects. -/
def Json.get? : Json → String → Option Json
  | .obj fields, key => lookupField fields key
  | _, _ => none

/-- `Value::as_str()`. -/
def Json.asStr? : Json → Option String
  | .str s => some s
  | _ => none

/-- `Value::as_bool()`. -/
def Json.asBool? : Json → Option Bool
  | .bool b => some b
  | _ => none

/-! ## CLI result envelope and output parsing (src/claude_code_client.rs) -/

/-- Modelled from the spec: the `CliResponse` struct (its file,
`claude_code_client/response.rs`, is not among the staged sources).
The spec: the result event "carries: `session_id` (string), `is_error`
(bool), `result` (optional free-form text), `structured_output`
(optional arbitrary JSON)". -/
structure CliResponse where
  session_id : String
  is_error : Bool
  result : Option String
  structured_output : Option Json

/-- serde decoding of an `Option<String>` field: absent or null is `None`,
a string is `Some`, any other value is a decode failure. -/
def decodeOptionalString : Option Json → Option (Option String)
  | none => some none
  | some .null => some none
  | some (.str s) => some (some s)
  | some _ => none

/-- serde decoding of an `Option<serde_json::Value>` field: absent or null
is `None`, any other value is kept. -/
def decodeOptionalJson : Option Json → Option (Option Json)
  | none => some none
  | some .null => some none
  | some v => some (some v)

/-- Modelled from the spec: serde deserialization of `CliResponse` from a
result event (`serde_json::from_value` at claude_code_client.rs:49). -/
def CliResponse.fromJson? (j : Json) : Option CliResponse := do
  let sid ← (j.get? "session_id").bind Json.asStr?
  let isErr ← (j.get? "is_error").bind Json.asBool?
  let res ← decodeOptionalString (j.get? "result")
  let so ← decodeOptionalJson (j.get? "structured_output")
  pure ⟨sid, isErr, res, so⟩

/-- The error type of the client (error.rs is not staged; variants are the
ones parse_cli_output can produce, named as in the spec's failure
taxonomy). -/
inductive ClaudeCodeClientError where
  | NoResultMessage
  | CliReturnedError (message : String)
  | MissingStructuredOutput
  | JsonParsingFailed
deriving DecidableEq

/-- Result of parse_cli_output: decoded value plus the session id of the
selected result event. -/
structure ParsedOutput (T : Type) where
  result : T
  session_id : String
deriving DecidableEq

/-- `msg.get("type").and_then(as_str) == Some("result")`
(claude_code_client.rs:46). -/
def isResultEvent (j : Json) : Bool :=
  ((j.get? "type").bind Json.asStr?) = some "result"

/-- Embedding of `parse_cli_output` (claude_code_client.rs:30-67) at the
level of the already-parsed message list.  `decode` stands for serde
deserialization of `structured_output` into the caller's expected shape
`T` (the generic `serde_json::from_value::<T>`).  The Rust scans the
messages from the end for the first event of type `result`
(`messages.into_iter().rev().find(..)`), then: `is_error` true fails with
`CliReturnedError` carrying the `result` text (empty when absent); a
missing `structured_output` fails with `MissingStructuredOutput`; a
present one is decoded into `T`. -/
def parse_cli_output {T : Type} (decode : Json → Option T) (messages : List Json) :
    Except ClaudeCodeClientError (ParsedOutput T) :=
  match messages.reverse.find? isResultEvent with
  | none => .error .NoResultMessage
  | some result_value =>
    match CliResponse.fromJson? result_value with
    | none => .error .JsonParsingFailed
    | some response =>
      if response.is_error then
        .error (.CliReturnedError (response.result.getD ""))
      else
        match response.structured_output with
        | none => .error .MissingStructuredOutput
        | some output_value =>
          match decode output_value with
          | none => .error .JsonParsingFailed
          | some result => .ok ⟨result, response.session_id⟩

/-- serde deserialization of a bare integer (`i64`), an instance of a
caller's expected shape. -/
def intDecode : Json → Option Int
  | .num n => some n
  | _ => none

/-- find? skips a prefix on which the predicate is everywhere false. -/
theorem find?_append_of_forall_false {α : Type} {p : α → Bool} {l₁ l₂ : List α}
    (h : ∀ x ∈ l₁, p x = false) : (l₁ ++ l₂).find? p = l₂.find? p := by
  induction l₁ with
  | nil => rfl
  | cons a l ih =>
    have ha : p a = false := h a (List.mem_cons_self a l)
    simp only [List.cons_append, List.find?_cons, ha]
    exact ih (fun x hx => h x (List.mem_cons_of_mem a hx))

/-- The result event parse_cli_output selects in a list that ends with
result event `ev` followed only by non-result events is `ev` itself. -/
theorem parse_selected_event {pre post : List Json} {ev : Json}
    (hev : isResultEvent ev = true)
    (hpost : ∀ x ∈ post, isResultEvent x = false) :
    (pre ++ ev :: post).reverse.find? isResultEvent = some ev := by
  have hrev : (pre ++ ev :: post).reverse = post.reverse ++ ev :: pre.reverse := by
    simp
  rw [hrev, find?_append_of_forall_false (fun x hx => hpost x (List.mem_reverse.mp hx))]
  simp [List.find?_cons, hev]

/-- C2: for every CLI stdout containing at least one event of type result
(interleaved arbitrarily with non-result events), the parser selects the
last result event: the returned session_id equals that last event's
session_id and the decoded value comes from that event's
structured_output. -/
theorem c2_parse_selects_last_result {T : Type} (decode : Json → Option T)
    (pre post : List Json) (ev : Json) (resp : CliResponse) (v : Json) (t : T)
    (hev : isResultEvent ev = true)
    (hpost : ∀ x ∈ post, isResultEvent x = false)
    (hresp : CliResponse.fromJson? ev = some resp)
    (herr : resp.is_error = false)
    (hso : resp.structured_output = some v)
    (hdec : decode v = some t) :
    parse_cli_output decode (pre ++ ev :: post) = .ok ⟨t, resp.session_id⟩ := by
  unfold parse_cli_output
  rw [parse_selected_event hev hpost]
  simp [hresp, herr, hso, hdec]

/-- A non-result system event for concrete test inputs. -/
def systemEvent : Json := .obj [("type", .str "system"), ("subtype", .str "init")]

/-- A non-result assistant event for concrete test inputs. -/
def assistantEvent : Json := .obj [("type", .str "assistant")]

/-- A concrete successful result event: session "sess-1", no error,
structured_output the integer 42. -/
def okResultEvent : Json :=
  .obj [("type", .str "result"), ("session_id", .str "sess-1"),
        ("is_error", .bool false), ("result", .str "done"),
        ("structured_output", .num 42)]

theorem c2_parse_selects_last_result_witness :
    parse_cli_output intDecode [systemEvent, okResultEvent, assistantEvent] =
      .ok ⟨(42 : Int), "sess-1"⟩ :=
  c2_parse_selects_last_result intDecode [systemEvent] [assistantEvent]
    okResultEvent ⟨"sess-1", false, some "done", some (.num 42)⟩ (.num 42) 42
    rfl
    (fun x hx => by rcases List.mem_singleton.mp hx with rfl; rfl)
    rfl rfl rfl rfl

/-- Value of an ASCII decimal digit. -/
def digitVal? (c : Char) : Option Nat :=
  if 48 ≤ c.toNat ∧ c.toNat ≤ 57 then some (c.toNat - 48) else none

/-- A nonempty all-digit character list read as a decimal number. -/
def digitsToNat? : List Char → Option Nat
  | [] => none
  | [c] => digitVal? c
  | c :: rest => do
    let d ← digitVal? c
    let r ← digitsToNat? rest
    pure (d * 10 ^ rest.length + r)

/-- Modelled from the spec: the fallback decode of the `result` text
("attempt to decode it as JSON into the caller's expected shape",
`serde_json::from_str`) for a caller expecting a bare integer, restricted
to unsigned decimal literals — enough to witness that "7" is a JSON
string that decodes to the expected shape. -/
def intDecodeStr (s : String) : Option Int :=
  (digitsToNat? s.data).map (Int.ofNat)

/-- The concrete result event refuting C1: is_error false, no
structured_output, and a result text "7" that is valid JSON for a caller
expecting a bare integer. -/
def c1Event : Json :=
  .obj [("type", .str "result"), ("session_id", .str "sess-3"),
        ("is_error", .bool false), ("result", .str "7")]

/-- C1 counterexample: the spec's fallback decode of the `result` text does
not exist in parse_cli_output.  At this input is_error is false,
structured_output is absent, the result text "7" is a JSON string that
decodes to the caller's expected shape (a bare integer: `"7".toInt? =
some 7`), yet parsing fails with MissingStructuredOutput instead of
returning the decoded value 7. -/
theorem c1_counterexample :
    CliResponse.fromJson? c1Event =
      some ⟨"sess-3", false, some "7", none⟩ ∧
    intDecodeStr "7" = some 7 ∧
    parse_cli_output intDecode [c1Event] = .error .MissingStructuredOutput ∧
    ∀ sid : String,
      ¬ parse_cli_output intDecode [c1Event] = .ok ⟨(7 : Int), sid⟩ := by
  refine ⟨rfl, by decide, rfl, ?_⟩
  intro sid h
  rw [show parse_cli_output intDecode [c1Event] =
        .error .MissingStructuredOutput from rfl] at h
  exact Except.noConfusion h

/-- C1 amended: when the selected result event has is_error false and no
structured_output field, parsing always fails with
MissingStructuredOutput, regardless of the result field's presence or
content; the result text is never decoded as a fallback. -/
theorem c1_missing_structured_output {T : Type} (decode : Json → Option T)
    (pre post : List Json) (ev : Json) (resp : CliResponse)
    (hev : isResultEvent ev = true)
    (hpost : ∀ x ∈ post, isResultEvent x = false)
    (hresp : CliResponse.fromJson? ev = some resp)
    (herr : resp.is_error = false)
    (hso : resp.structured_output = none) :
    parse_cli_output decode (pre ++ ev :: post) =
      .error .MissingStructuredOutput := by
  unfold parse_cli_output
  rw [parse_selected_event hev hpost]
  simp [hresp, herr, hso]

theorem c1_missing_structured_output_witness :
    parse_cli_output intDecode [c1Event] = .error .MissingStructuredOutput :=
  c1_missing_structured_output intDecode [] []
    c1Event ⟨"sess-3", false, some "7", none⟩
    rfl (fun x hx => absurd hx (List.not_mem_nil x)) rfl rfl rfl

/-! ## Stream truncation (src/claude_code_client.rs:523-543) -/

/-- Prepend a character to the first piece of a split. -/
def consHead (c : Char) : List (List Char) → List (List Char)
  | [] => [[c]]
  | p :: ps => (c :: p) :: ps

/-- Split a character list at newline characters, keeping empty pieces
(n separators yield n+1 pieces). -/
def splitNl : List Char → List (List Char)
  | [] => [[]]
  | c :: rest =>
    if c = '\n' then [] :: splitNl rest
    else consHead c (splitNl rest)

/-- Rust `str::lines` strips one trailing carriage return from each piece
(a line ending is `\n` or `\r\n`). -/
def stripTrailingCr (p : List Char) : List Char :=
  if p.getLast? = some '\r' then p.dropLast else p

/-- Rust `str::lines` treats the final line ending as optional: a final
empty piece is not a line. -/
def dropFinalEmpty (ps : List (List Char)) : List (List Char) :=
  if ps.getLast? = some [] then ps.dropLast else ps

/-- Embedding of Rust `str::lines()` as used by `text.lines().collect()`:
split at `\n`, strip a trailing `\r` from each line, drop the optional
final empty piece. -/
def rustLines (s : String) : List String :=
  (dropFinalEmpty (splitNl s.data)).map (fun p => (stripTrailingCr p).asString)

/-- `MAX_STREAM_DISPLAY_LINES` (claude_code_client.rs:523). -/
def MAX_STREAM_DISPLAY_LINES : Nat := 3

/-- `Vec::join("\n")` over collected lines. -/
def joinLines : List String → String
  | [] => ""
  | [l] => l
  | l :: ls => l ++ "\n" ++ joinLines ls

/-- Embedding of `truncate_to_max_lines` (claude_code_client.rs:535-543):
texts of at most 3 lines are returned unchanged; longer texts keep their
first 3 lines joined by newlines, followed by `\n... (+N lines)` with N
the number of omitted lines. -/
def truncate_to_max_lines (text : String) : String :=
  let lines := rustLines text
  if lines.length ≤ MAX_STREAM_DISPLAY_LINES then text
  else
    joinLines (lines.take MAX_STREAM_DISPLAY_LINES) ++ "\n... (+" ++
      Nat.repr (lines.length - MAX_STREAM_DISPLAY_LINES) ++ " lines)"

theorem digitChar_ne_newline (n : Nat) : Nat.digitChar n ≠ '\n' := by
  by_cases h : n < 16
  · interval_cases n <;> decide
  · have h0 : n ≠ 0 := by omega
    have h1 : n ≠ 1 := by omega
    have h2 : n ≠ 2 := by omega
    have h3 : n ≠ 3 := by omega
    have h4 : n ≠ 4 := by omega
    have h5 : n ≠ 5 := by omega
    have h6 : n ≠ 6 := by omega
    have h7 : n ≠ 7 := by omega
    have h8 : n ≠ 8 := by omega
    have h9 : n ≠ 9 := by omega
    have h10 : n ≠ 10 := by omega
    have h11 : n ≠ 11 := by omega
    have h12 : n ≠ 12 := by omega
    have h13 : n ≠ 13 := by omega
    have h14 : n ≠ 14 := by omega
    have h15 : n ≠ 15 := by omega
    simp [Nat.digitChar, h0, h1, h2, h3, h4, h5, h6, h7, h8, h9, h10,
      h11, h12, h13, h14, h15]

theorem toDigitsCore_ne_newline (b : Nat) :
    ∀ (f n : Nat) (l : List Char), (∀ c ∈ l, c ≠ '\n') →
      ∀ c ∈ Nat.toDigitsCore b f n l, c ≠ '\n' := by
  intro f
  induction f with
  | zero => intro n l hl; simpa [Nat.toDigitsCore] using hl
  | succ f ih =>
    intro n l hl c hc
    rw [Nat.toDigitsCore] at hc
    by_cases hz : n / b = 0
    · simp only [hz, if_pos rfl] at hc
      rcases List.mem_cons.mp hc with h | h
      · exact h ▸ digitChar_ne_newline _
      · exact hl c h
    · simp only [if_neg hz] at hc
      refine ih (n / b) _ ?_ c hc
      intro d hd
      rcases List.mem_cons.mp hd with h | h
      · exact h ▸ digitChar_ne_newline _
      · exact hl d h

theorem repr_no_newline (n : Nat) : ∀ c ∈ (Nat.repr n).data, c ≠ '\n' := by
  intro c hc
  have : (Nat.repr n).data = Nat.toDigitsCore 10 (n + 1) n [] := rfl
  rw [this] at hc
  exact toDigitsCore_ne_newline 10 (n + 1) n [] (by intro d hd; cases hd) c hc

theorem splitNl_ne_nil (l : List Char) : splitNl l ≠ [] := by
  cases l with
  | nil => simp [splitNl]
  | cons c rest =>
    by_cases h : c = '\n'
    · simp [splitNl, h]
    · simp only [splitNl, if_neg h]
      cases splitNl rest <;> simp [consHead]

theorem splitNl_pieces_no_newline (l : List Char) :
    ∀ p ∈ splitNl l, ∀ c ∈ p, c ≠ '\n' := by
  induction l with
  | nil =>
    intro p hp
    rw [List.mem_singleton.mp hp]
    intro c hc
    cases hc
  | cons a rest ih =>
    intro p hp c hc
    by_cases ha : a = '\n'
    · rw [splitNl, if_pos ha] at hp
      rcases List.mem_cons.mp hp with h | h
      · subst h; cases hc
      · exact ih p h c hc
    · rw [splitNl, if_neg ha] at hp
      rcases hq : splitNl rest with _ | ⟨q, qs⟩
      · exact absurd hq (splitNl_ne_nil rest)
      · rw [hq] at hp
        rw [consHead] at hp
        rcases List.mem_cons.mp hp with h | h
        · subst h
          rcases List.mem_cons.mp hc with h | h
          · exact h ▸ ha
          · exact ih q (hq ▸ List.mem_cons_self q qs) c h
        · exact ih p (hq ▸ List.mem_cons_of_mem q h) c hc

theorem splitNl_append_newline (xs ys : List Char) (hxs : ∀ c ∈ xs, c ≠ '\n') :
    splitNl (xs ++ '\n' :: ys) = xs :: splitNl ys := by
  induction xs with
  | nil => simp [splitNl]
  | cons a xs ih =>
    have ha : a ≠ '\n' := hxs a (List.mem_cons_self a xs)
    have ih2 := ih (fun c hc => hxs c (List.mem_cons_of_mem a hc))
    simp only [List.cons_append, splitNl, if_neg ha]
    show consHead a (splitNl (xs ++ '\n' :: ys)) = (a :: xs) :: splitNl ys
    rw [ih2]
    rfl

theorem splitNl_of_no_newline (xs : List Char) (hxs : ∀ c ∈ xs, c ≠ '\n') :
    splitNl xs = [xs] := by
  induction xs with
  | nil => rfl
  | cons a xs ih =>
    have ha : a ≠ '\n' := hxs a (List.mem_cons_self a xs)
    have ih2 := ih (fun c hc => hxs c (List.mem_cons_of_mem a hc))
    simp only [splitNl, if_neg ha, ih2, consHead]

theorem stripTrailingCr_no_newline (p : List Char) (hp : ∀ c ∈ p, c ≠ '\n') :
    ∀ c ∈ stripTrailingCr p, c ≠ '\n' := by
  intro c hc
  unfold stripTrailingCr at hc
  split at hc
  · exact hp c (List.Sublist.subset (List.dropLast_sublist p) hc)
  · exact hp c hc

/-- Every line returned by rustLines is newline-free. -/
theorem rustLines_no_newline (s : String) :
    ∀ l ∈ rustLines s, ∀ c ∈ l.data, c ≠ '\n' := by
  intro l hl c hc
  unfold rustLines at hl
  rcases List.mem_map.mp hl with ⟨p, hp, rfl⟩
  have hp2 : p ∈ splitNl s.data := by
    unfold dropFinalEmpty at hp
    split at hp
    · exact List.Sublist.subset (List.dropLast_sublist _) hp
    · exact hp
  have : c ∈ stripTrailingCr p := hc
  exact stripTrailingCr_no_newline p (splitNl_pieces_no_newline s.data p hp2) c this

/-- Computation of rustLines on a 3-line join followed by the truncation
trailer: exactly 4 lines come back. -/
theorem rustLines_truncated_length (a b c : String) (n : Nat)
    (ha : ∀ ch ∈ a.data, ch ≠ '\n')
    (hb : ∀ ch ∈ b.data, ch ≠ '\n')
    (hc : ∀ ch ∈ c.data, ch ≠ '\n') :
    (rustLines (joinLines [a, b, c] ++ "\n... (+" ++ Nat.repr n ++ " lines)")).length
      = 4 := by
  have hdata :
      (joinLines [a, b, c] ++ "\n... (+" ++ Nat.repr n ++ " lines)").data =
        a.data ++ '\n' :: (b.data ++ '\n' :: (c.data ++ '\n' ::
          ("... (+".data ++ (Nat.repr n).data ++ " lines)".data))) := by
    simp [joinLines, String.data_append]
  have hlit1 : ∀ ch ∈ "... (+".data, ch ≠ '\n' := by decide
  have hlit2 : ∀ ch ∈ " lines)".data, ch ≠ '\n' := by decide
  have htail : ∀ ch ∈ "... (+".data ++ (Nat.repr n).data ++ " lines)".data,
      ch ≠ '\n' := by
    intro ch hch
    rcases List.mem_append.mp hch with h | h
    · rcases List.mem_append.mp h with h2 | h2
      · exact hlit1 ch h2
      · exact repr_no_newline n ch h2
    · exact hlit2 ch h
  have hsplit :
      splitNl (joinLines [a, b, c] ++ "\n... (+" ++ Nat.repr n ++ " lines)").data =
        [a.data, b.data, c.data,
          "... (+".data ++ (Nat.repr n).data ++ " lines)".data] := by
    rw [hdata, splitNl_append_newline _ _ ha, splitNl_append_newline _ _ hb,
      splitNl_append_newline _ _ hc, splitNl_of_no_newline _ htail]
  have htne : "... (+".data ++ (Nat.repr n).data ++ " lines)".data ≠ [] := by
    intro h
    have : "... (+".data = [] := List.append_eq_nil.mp
      (List.append_eq_nil.mp h).1 |>.1
    revert this
    decide
  unfold rustLines
  rw [hsplit]
  unfold dropFinalEmpty
  rw [if_neg (by simp only [List.getLast?]; simp [htne])]
  simp

/-- C9: every formatted stream message contains at most 3 visible lines
(at most 4 physical lines, the 4th being the trailer); text of 3 lines or
fewer is returned unchanged; text of more than 3 lines is truncated to
its first 3 lines with the trailer `... (+N lines)` appended, N being the
exact number of omitted lines. -/
theorem c9_truncate_to_max_lines (text : String) :
    (rustLines (truncate_to_max_lines text)).length ≤ MAX_STREAM_DISPLAY_LINES + 1 ∧
    ((rustLines text).length ≤ MAX_STREAM_DISPLAY_LINES →
      truncate_to_max_lines text = text) ∧
    (MAX_STREAM_DISPLAY_LINES < (rustLines text).length →
      truncate_to_max_lines text =
        joinLines ((rustLines text).take MAX_STREAM_DISPLAY_LINES) ++ "\n... (+" ++
          Nat.repr ((rustLines text).length - MAX_STREAM_DISPLAY_LINES) ++
          " lines)" ∧
      (rustLines (truncate_to_max_lines text)).length =
        MAX_STREAM_DISPLAY_LINES + 1) := by
  by_cases hle : (rustLines text).length ≤ MAX_STREAM_DISPLAY_LINES
  · have heq : truncate_to_max_lines text = text := by
      unfold truncate_to_max_lines
      rw [if_pos hle]
    refine ⟨?_, fun _ => heq, fun hgt => absurd hle (by omega)⟩
    rw [heq]
    exact le_trans hle (by omega)
  · have hgt : MAX_STREAM_DISPLAY_LINES < (rustLines text).length := by omega
    have heq : truncate_to_max_lines text =
        joinLines ((rustLines text).take MAX_STREAM_DISPLAY_LINES) ++ "\n... (+" ++
          Nat.repr ((rustLines text).length - MAX_STREAM_DISPLAY_LINES) ++
          " lines)" := by
      simp only [truncate_to_max_lines]
      rw [if_neg hle]
    rcases hl : rustLines text with _ | ⟨a, _ | ⟨b, _ | ⟨c, rest⟩⟩⟩
    · rw [hl] at hle; simp [MAX_STREAM_DISPLAY_LINES] at hle
    · rw [hl] at hle; simp [MAX_STREAM_DISPLAY_LINES] at hle
    · rw [hl] at hle; simp [MAX_STREAM_DISPLAY_LINES] at hle
    rw [← hl]
    have htake : (rustLines text).take MAX_STREAM_DISPLAY_LINES = [a, b, c] := by
      rw [hl]; rfl
    have hmem := rustLines_no_newline text
    rw [hl] at hmem
    have hlen4 : (rustLines (truncate_to_max_lines text)).length = 4 := by
      rw [heq, htake]
      exact rustLines_truncated_length a b c _
        (hmem a (by simp)) (hmem b (by simp)) (hmem c (by simp))
    refine ⟨?_, fun h => absurd hgt (by omega), fun _ => ⟨heq, hlen4⟩⟩
    rw [hlen4]
    decide

/-! ## Session-name sanitization (src/ui/session_naming.rs:49-82) -/

/-- `char::is_ascii_alphanumeric`. -/
def isAsciiAlphanumeric (c : Char) : Bool :=
  (48 ≤ c.toNat && c.toNat ≤ 57) || (65 ≤ c.toNat && c.toNat ≤ 90) ||
    (97 ≤ c.toNat && c.toNat ≤ 122)

/-- `char::to_ascii_lowercase`. -/
def toAsciiLower (c : Char) : Char :=
  if 65 ≤ c.toNat ∧ c.toNat ≤ 90 then Char.ofNat (c.toNat + 32) else c

/-- The per-character map of the first pass of sanitize_session_name
(session_naming.rs:50-59): allowed characters are lowercased, everything
else becomes a hyphen. -/
def mapChar (c : Char) : Char :=
  if isAsciiAlphanumeric c || c = '-' || c = '_' then toAsciiLower c else '-'

/-- Second pass (session_naming.rs:61-73): collapse consecutive hyphens,
carrying the `prev_was_hyphen` flag of the Rust loop. -/
def collapseHyphens : List Char → Bool → List Char
  | [], _ => []
  | c :: rest, prev =>
    if c = '-' then
      if prev then collapseHyphens rest true else c :: collapseHyphens rest true
    else c :: collapseHyphens rest false

/-- `str::trim_matches('-')` (session_naming.rs:75): drop hyphens from
both ends. -/
def trimHyphens (l : List Char) : List Char :=
  ((l.dropWhile (fun c => c = '-')).reverse.dropWhile (fun c => c = '-')).reverse

/-- Embedding of `sanitize_session_name` (session_naming.rs:49-82): map
characters (`lowered`), collapse hyphen runs (`result` loop), trim hyphens
at both ends, and fall back to "unnamed-session" when empty. -/
def sanitize_session_name (raw : String) : String :=
  if (trimHyphens (collapseHyphens (raw.data.map mapChar) false)).isEmpty then
    "unnamed-session"
  else (trimHyphens (collapseHyphens (raw.data.map mapChar) false)).asString

/-- Character class of sanitized output: `[a-z0-9_-]`. -/
def isSanChar (c : Char) : Bool :=
  (97 ≤ c.toNat && c.toNat ≤ 122) || (48 ≤ c.toNat && c.toNat ≤ 57) ||
    c = '-' || c = '_'

/-- No two consecutive hyphens anywhere in the list. -/
def noConsecutiveHyphens (l : List Char) : Prop :=
  List.Chain' (fun a b => ¬(a = '-' ∧ b = '-')) l

theorem char_toNat_ofNat_valid (n : Nat) (hv : n.isValidChar) :
    (Char.ofNat n).toNat = n := by
  simp [Char.ofNat, Char.toNat, hv, Char.ofNatAux, UInt32.toNat, BitVec.toNat_ofNatLt]

theorem char_eq_of_toNat_eq {c d : Char} (h : c.toNat = d.toNat) : c = d := by
  rw [← Char.ofNat_toNat c, ← Char.ofNat_toNat d, h]

theorem mapChar_isSan (c : Char) : isSanChar (mapChar c) = true := by
  rw [mapChar]
  split
  next h =>
    simp only [Bool.or_eq_true, decide_eq_true_eq] at h
    rw [toAsciiLower]
    split
    next hup =>
      have hv : (c.toNat + 32).isValidChar := Or.inl (by omega)
      have ht : (Char.ofNat (c.toNat + 32)).toNat = c.toNat + 32 :=
        char_toNat_ofNat_valid _ hv
      simp only [isSanChar, Bool.or_eq_true, Bool.and_eq_true,
        decide_eq_true_eq, ht]
      exact Or.inl (Or.inl (Or.inl ⟨by omega, by omega⟩))
    next hup =>
      simp only [isSanChar, Bool.or_eq_true, Bool.and_eq_true,
        decide_eq_true_eq]
      rcases h with (h | h) | h
      · simp only [isAsciiAlphanumeric, Bool.or_eq_true, Bool.and_eq_true,
          decide_eq_true_eq] at h
        rcases h with (h | h) | h
        · exact Or.inl (Or.inl (Or.inr ⟨h.1, h.2⟩))
        · exact absurd h hup
        · exact Or.inl (Or.inl (Or.inl ⟨h.1, h.2⟩))
      · exact Or.inl (Or.inr h)
      · exact Or.inr h
  next h => decide

theorem mapChar_fixed {c : Char} (h : isSanChar c = true) : mapChar c = c := by
  simp only [isSanChar, Bool.or_eq_true, Bool.and_eq_true,
    decide_eq_true_eq] at h
  have hno : ¬(65 ≤ c.toNat ∧ c.toNat ≤ 90) := by
    rcases h with (h | h) | h
    · rcases h with h | h
      · omega
      · omega
    · subst h; decide
    · subst h; decide
  have halw : (isAsciiAlphanumeric c || decide (c = '-') || decide (c = '_'))
      = true := by
    simp only [Bool.or_eq_true, decide_eq_true_eq]
    rcases h with (h | h) | h
    · left; left
      simp only [isAsciiAlphanumeric, Bool.or_eq_true, Bool.and_eq_true,
        decide_eq_true_eq]
      rcases h with h | h
      · exact Or.inr h
      · exact Or.inl (Or.inl h)
    · exact Or.inl (Or.inr h)
    · exact Or.inr h
  rw [mapChar, if_pos halw, toAsciiLower, if_neg hno]

theorem collapseHyphens_sound (l : List Char) : ∀ b : Bool,
    noConsecutiveHyphens (collapseHyphens l b) ∧
    (b = true → ∀ x ∈ (collapseHyphens l b).head?, x ≠ '-') := by
  induction l with
  | nil =>
    intro b
    exact ⟨List.chain'_nil, fun _ x hx => by cases hx⟩
  | cons c rest ih =>
    intro b
    by_cases hc : c = '-'
    · cases b with
      | true =>
        rw [show collapseHyphens (c :: rest) true = collapseHyphens rest true by
          rw [collapseHyphens, if_pos hc, if_pos rfl]]
        exact ih true
      | false =>
        rw [show collapseHyphens (c :: rest) false = c :: collapseHyphens rest true by
          rw [collapseHyphens, if_pos hc]; rfl]
        constructor
        · rw [noConsecutiveHyphens, List.chain'_cons']
          refine ⟨?_, (ih true).1⟩
          intro y hy
          intro hcon
          exact (ih true).2 rfl y hy hcon.2
        · intro hfalse; cases hfalse
    · rw [show collapseHyphens (c :: rest) b = c :: collapseHyphens rest false by
        rw [collapseHyphens, if_neg hc]]
      constructor
      · rw [noConsecutiveHyphens, List.chain'_cons']
        refine ⟨?_, (ih false).1⟩
        intro y hy hcon
        exact hc hcon.1
      · intro _ x hx
        rw [Option.mem_def, List.head?_cons, Option.some_inj] at hx
        exact hx ▸ hc

theorem collapseHyphens_subset (l : List Char) : ∀ b : Bool,
    ∀ c ∈ collapseHyphens l b, c ∈ l := by
  induction l with
  | nil => intro b c hc; cases hc
  | cons a rest ih =>
    intro b c hc
    by_cases ha : a = '-'
    · cases b with
      | true =>
        rw [show collapseHyphens (a :: rest) true = collapseHyphens rest true by
          rw [collapseHyphens, if_pos ha, if_pos rfl]] at hc
        exact List.mem_cons_of_mem a (ih true c hc)
      | false =>
        rw [show collapseHyphens (a :: rest) false =
            a :: collapseHyphens rest true by
          rw [collapseHyphens, if_pos ha]; rfl] at hc
        rcases List.mem_cons.mp hc with h | h
        · exact h ▸ List.mem_cons_self a rest
        · exact List.mem_cons_of_mem a (ih true c h)
    · rw [show collapseHyphens (a :: rest) b = a :: collapseHyphens rest false by
        rw [collapseHyphens, if_neg ha]] at hc
      rcases List.mem_cons.mp hc with h | h
      · exact h ▸ List.mem_cons_self a rest
      · exact List.mem_cons_of_mem a (ih false c h)

theorem collapseHyphens_fixed (l : List Char) (hl : noConsecutiveHyphens l) :
    collapseHyphens l false = l ∧
    ((∀ x ∈ l.head?, x ≠ '-') → collapseHyphens l true = l) := by
  induction l with
  | nil => exact ⟨rfl, fun _ => rfl⟩
  | cons c rest ih =>
    rw [noConsecutiveHyphens, List.chain'_cons'] at hl
    obtain ⟨hrel, hrest⟩ := hl
    obtain ⟨ihf, iht⟩ := ih hrest
    by_cases hc : c = '-'
    · have hresthead : ∀ x ∈ rest.head?, x ≠ '-' := by
        intro y hy hcon
        exact hrel y hy ⟨hc, hcon⟩
      constructor
      · rw [collapseHyphens, if_pos hc, if_neg (by simp), iht hresthead]
      · intro hhead
        exact absurd hc (hhead c (by rw [List.head?_cons, Option.mem_def]))
    · constructor
      · rw [collapseHyphens, if_neg hc, ihf]
      · intro _
        rw [collapseHyphens, if_neg hc, ihf]

theorem dropWhile_head_not {α : Type} (p : α → Bool) (l : List α) :
    ∀ x ∈ (l.dropWhile p).head?, p x = false := by
  induction l with
  | nil => intro x hx; cases hx
  | cons a rest ih =>
    by_cases ha : p a = true
    · rw [List.dropWhile_cons_of_pos ha]
      exact ih
    · rw [List.dropWhile_cons_of_neg ha]
      intro x hx
      rw [Option.mem_def, List.head?_cons, Option.some_inj] at hx
      subst hx
      exact Bool.eq_false_iff.mpr ha

theorem dropWhile_fixed {α : Type} (p : α → Bool) (l : List α)
    (h : ∀ x ∈ l.head?, p x = false) : l.dropWhile p = l := by
  cases l with
  | nil => rfl
  | cons a rest =>
    have : p a = false := h a (by rw [List.head?_cons, Option.mem_def])
    rw [List.dropWhile_cons_of_neg (by rw [this]; exact Bool.false_ne_true)]

theorem trimHyphens_prefix_of_dropWhile (l : List Char) :
    trimHyphens l <+: l.dropWhile (fun c => c = '-') := by
  unfold trimHyphens
  have h1 := List.dropWhile_suffix (l := (l.dropWhile (fun c => c = '-')).reverse)
    (fun c => c = '-')
  have h2 := List.reverse_prefix.mpr h1
  simpa using h2

theorem trimHyphens_subset (l : List Char) : ∀ c ∈ trimHyphens l, c ∈ l :=
  fun c hc =>
    (List.dropWhile_suffix (fun x => x = '-')).subset
      ((trimHyphens_prefix_of_dropWhile l).subset hc)

theorem trimHyphens_head (l : List Char) :
    ∀ x ∈ (trimHyphens l).head?, x ≠ '-' := by
  intro x hx
  rcases ht : trimHyphens l with _ | ⟨a, t⟩
  · rw [ht] at hx; cases hx
  · rw [ht, List.head?_cons, Option.mem_def, Option.some_inj] at hx
    have hpre := trimHyphens_prefix_of_dropWhile l
    rw [ht] at hpre
    obtain ⟨rest, hrest⟩ := hpre
    have hhead : (l.dropWhile (fun c => c = '-')).head? = some a := by
      rw [← hrest]; rfl
    have hnot := dropWhile_head_not (fun c => c = '-') l a (Option.mem_def.mpr hhead)
    rw [← hx]
    exact of_decide_eq_false hnot

theorem trimHyphens_getLast (l : List Char) :
    ∀ x ∈ (trimHyphens l).getLast?, x ≠ '-' := by
  intro x hx
  unfold trimHyphens at hx
  rw [List.getLast?_reverse] at hx
  have := dropWhile_head_not (fun c => c = '-') _ x hx
  exact of_decide_eq_false this

theorem chain'_of_prefix {α : Type} {R : α → α → Prop} {l₁ l₂ : List α}
    (h : l₁ <+: l₂) (hc : List.Chain' R l₂) : List.Chain' R l₁ := by
  obtain ⟨t, rfl⟩ := h
  exact (List.chain'_append.mp hc).1

theorem chain'_of_suffix {α : Type} {R : α → α → Prop} {l₁ l₂ : List α}
    (h : l₁ <:+ l₂) (hc : List.Chain' R l₂) : List.Chain' R l₁ := by
  obtain ⟨t, rfl⟩ := h
  exact (List.chain'_append.mp hc).2.1

theorem trimHyphens_chain (l : List Char) (h : noConsecutiveHyphens l) :
    noConsecutiveHyphens (trimHyphens l) :=
  chain'_of_prefix (trimHyphens_prefix_of_dropWhile l)
    (chain'_of_suffix (List.dropWhile_suffix _) h)

theorem trimHyphens_fixed (l : List Char)
    (h1 : ∀ x ∈ l.head?, x ≠ '-') (h2 : ∀ x ∈ l.getLast?, x ≠ '-') :
    trimHyphens l = l := by
  unfold trimHyphens
  have hd1 : l.dropWhile (fun c => c = '-') = l :=
    dropWhile_fixed _ l (fun x hx => decide_eq_false (h1 x hx))
  rw [hd1]
  have hd2 : l.reverse.dropWhile (fun c => c = '-') = l.reverse :=
    dropWhile_fixed _ l.reverse (fun x hx =>
      decide_eq_false (h2 x (by rwa [List.head?_reverse] at hx)))
  rw [hd2, List.reverse_reverse]

/-- The five structural properties of every sanitize_session_name output:
nonempty, all characters in `[a-z0-9_-]`, no leading hyphen, no trailing
hyphen, no consecutive hyphens. -/
theorem sanitize_output_props (x : String) :
    (sanitize_session_name x).data ≠ [] ∧
    (∀ c ∈ (sanitize_session_name x).data, isSanChar c = true) ∧
    (∀ c ∈ (sanitize_session_name x).data.head?, c ≠ '-') ∧
    (∀ c ∈ (sanitize_session_name x).data.getLast?, c ≠ '-') ∧
    noConsecutiveHyphens (sanitize_session_name x).data := by
  unfold sanitize_session_name
  split
  · refine ⟨by decide, by decide, by decide, by decide, ?_⟩
    rw [noConsecutiveHyphens,
      show ("unnamed-session" : String).data =
        ['u', 'n', 'n', 'a', 'm', 'e', 'd', '-', 's', 'e', 's', 's', 'i', 'o', 'n']
      from rfl]
    simp only [List.chain'_cons, List.chain'_singleton, and_true]
    decide
  next hne =>
    have hne2 : trimHyphens (collapseHyphens (x.data.map mapChar) false) ≠ [] :=
      fun h => hne (by rw [h]; rfl)
    have hdata : ((trimHyphens (collapseHyphens (x.data.map mapChar) false)).asString).data
        = trimHyphens (collapseHyphens (x.data.map mapChar) false) := rfl
    rw [hdata]
    refine ⟨hne2, ?_, trimHyphens_head _, trimHyphens_getLast _, ?_⟩
    · intro c hc
      have hc2 := trimHyphens_subset _ c hc
      have hc3 := collapseHyphens_subset _ false c hc2
      rcases List.mem_map.mp hc3 with ⟨a, _, rfl⟩
      exact mapChar_isSan a
    · exact trimHyphens_chain _ ((collapseHyphens_sound _ false).1)

/-- sanitize_session_name is the identity on strings already satisfying
its output invariants. -/
theorem sanitize_fixed (y : String)
    (h1 : y.data ≠ [])
    (h2 : ∀ c ∈ y.data, isSanChar c = true)
    (h3 : ∀ c ∈ y.data.head?, c ≠ '-')
    (h4 : ∀ c ∈ y.data.getLast?, c ≠ '-')
    (h5 : noConsecutiveHyphens y.data) :
    sanitize_session_name y = y := by
  unfold sanitize_session_name
  have hmap : y.data.map mapChar = y.data := by
    rw [List.map_congr_left (fun a ha => mapChar_fixed (h2 a ha))]
    exact List.map_id y.data
  rw [hmap, (collapseHyphens_fixed _ h5).1, trimHyphens_fixed _ h3 h4,
    if_neg (fun h => h1 (List.isEmpty_iff.mp h))]
  rfl

/-- C7: sanitization is idempotent; for every input the output is nonempty,
drawn from `[a-z0-9_-]`, with no leading, trailing, or consecutive
hyphens; the empty input and inputs with no alphanumeric or underscore
character (all-special inputs) yield the fixed fallback
"unnamed-session". -/
theorem c7_sanitize_session_name :
    (∀ x : String,
      sanitize_session_name (sanitize_session_name x) = sanitize_session_name x) ∧
    (∀ x : String,
      (sanitize_session_name x).data ≠ [] ∧
      (∀ c ∈ (sanitize_session_name x).data, isSanChar c = true) ∧
      (∀ c ∈ (sanitize_session_name x).data.head?, c ≠ '-') ∧
      (∀ c ∈ (sanitize_session_name x).data.getLast?, c ≠ '-') ∧
      noConsecutiveHyphens (sanitize_session_name x).data) ∧
    sanitize_session_name "" = "unnamed-session" ∧
    (∀ x : String, (∀ c ∈ x.data, isAsciiAlphanumeric c = false ∧ c ≠ '_') →
      sanitize_session_name x = "unnamed-session") := by
  refine ⟨?_, sanitize_output_props, by decide, ?_⟩
  · intro x
    obtain ⟨h1, h2, h3, h4, h5⟩ := sanitize_output_props x
    exact sanitize_fixed _ h1 h2 h3 h4 h5
  · intro x hx
    have hmap : ∀ c ∈ x.data.map mapChar, c = '-' := by
      intro c hc
      rcases List.mem_map.mp hc with ⟨a, ha, rfl⟩
      obtain ⟨han, hund⟩ := hx a ha
      by_cases hhy : a = '-'
      · rw [mapChar, if_pos (by simp [hhy]), toAsciiLower, if_neg (by subst hhy; decide)]
        exact hhy
      · have hneg : ¬((isAsciiAlphanumeric a || decide (a = '-') ||
            decide (a = '_')) = true) := by
          simp only [Bool.or_eq_true, decide_eq_true_eq, han]
          push_neg
          exact ⟨⟨fun h => absurd h (by simp [han]), hhy⟩, hund⟩
        rw [mapChar, if_neg hneg]
    have hcoll : ∀ c ∈ collapseHyphens (x.data.map mapChar) false, c = '-' :=
      fun c hc => hmap c (collapseHyphens_subset _ false c hc)
    have htrim : trimHyphens (collapseHyphens (x.data.map mapChar) false) = [] := by
      rcases ht : trimHyphens (collapseHyphens (x.data.map mapChar) false)
        with _ | ⟨a, t⟩
      · rfl
      · have ha : a = '-' := hcoll a (trimHyphens_subset _ a
          (ht ▸ List.mem_cons_self a t))
        have hhd := trimHyphens_head (collapseHyphens (x.data.map mapChar) false) a
          (by rw [ht, List.head?_cons]; rfl)
        exact absurd ha hhd
    rw [sanitize_session_name, htrim]
    rfl

/-! ## Unique session directory name (src/ui/session_naming.rs:92-107) -/

/-- `format!("{}-{}", base_name, suffix)`. -/
def candidateName (base : String) (suffix : Nat) : String :=
  base ++ "-" ++ Nat.repr suffix

/-- The `for suffix in 2..` loop of ensure_unique_name, with the
filesystem probe `.exists()` abstracted as `e` over names inside the
date bucket, and an explicit fuel bounding the number of iterations
modelled (`none` means the loop has not returned within `fuel`
iterations; the Rust loop is unbounded). -/
def ensureUniqueLoop (e : String → Bool) (base : String) :
    Nat → Nat → Option String
  | 0, _ => none
  | fuel + 1, suffix =>
    if e (candidateName base suffix) then
      ensureUniqueLoop e base fuel (suffix + 1)
    else some (candidateName base suffix)

/-- Embedding of `ensure_unique_name` (session_naming.rs:92-107): return
the base name when no directory of that name exists, otherwise try
`base-2`, `base-3`, … in increasing order. -/
def ensure_unique_name (e : String → Bool) (base : String) (fuel : Nat) :
    Option String :=
  if e base = false then some base
  else ensureUniqueLoop e base fuel 2

theorem ensureUniqueLoop_first_free (e : String → Bool) (base : String) :
    ∀ (fuel start k : Nat), start ≤ k →
      e (candidateName base k) = false →
      (∀ j, start ≤ j → j < k → e (candidateName base j) = true) →
      k - start + 1 ≤ fuel →
      ensureUniqueLoop e base fuel start = some (candidateName base k) := by
  intro fuel
  induction fuel with
  | zero => intro start k _ _ _ hf; omega
  | succ f ih =>
    intro start k hsk hk hall hf
    rw [ensureUniqueLoop]
    by_cases heq : start = k
    · rw [heq, hk]
      simp
    · have hlt : start < k := by omega
      rw [hall start le_rfl hlt]
      simp only [if_true]
      exact ih (start + 1) k (by omega) hk
        (fun j hj1 hj2 => hall j (by omega) hj2) (by omega)

/-- C8: with the date bucket containing exactly foo, foo-2 and foo-3,
ensuring uniqueness of "foo" yields "foo-4" (for any sufficient fuel); a
base name with no existing directory is returned unchanged; in general,
when the base name exists, the suffixes -2, -3, … are tried in increasing
order and the first free candidate is returned. -/
theorem c8_ensure_unique_name :
    (∀ fuel, 3 ≤ fuel →
      ensure_unique_name (fun s => ["foo", "foo-2", "foo-3"].contains s)
        "foo" fuel = some "foo-4") ∧
    (∀ (e : String → Bool) (base : String) (fuel : Nat), e base = false →
      ensure_unique_name e base fuel = some base) ∧
    (∀ (e : String → Bool) (base : String) (k fuel : Nat),
      e base = true → 2 ≤ k →
      e (candidateName base k) = false →
      (∀ j, 2 ≤ j → j < k → e (candidateName base j) = true) →
      k - 1 ≤ fuel →
      ensure_unique_name e base fuel = some (candidateName base k)) := by
  refine ⟨?_, ?_, ?_⟩
  · intro fuel hfuel
    obtain ⟨m, rfl⟩ : ∃ m, fuel = m + 3 := ⟨fuel - 3, by omega⟩
    rfl
  · intro e base fuel hb
    rw [ensure_unique_name, if_pos hb]
  · intro e base k fuel hb hk2 hkfree hall hfuel
    rw [ensure_unique_name, if_neg (by simp [hb])]
    exact ensureUniqueLoop_first_free e base fuel 2 k hk2 hkfree hall (by omega)

/-! ## Session token lifecycle (src/claude_code_client.rs) -/

/-- The session argument build_base_command passes to the CLI: a fresh
`--session-id`, or `--resume` with the stored token. -/
inductive SessionArg where
  | newId (id : String)
  | resume (id : String)
deriving DecidableEq

/-- Session-relevant slice of `build_base_command`
(claude_code_client.rs:150-161): with a stored token, pass `--resume`
and set the `new_session_id` local to None; with none, generate a fresh
UUID (abstracted as `fresh`), pass `--session-id`, and remember it. -/
def build_base_command_session (stored : Option String) (fresh : String) :
    SessionArg × Option String :=
  match stored with
  | some existing => (.resume existing, none)
  | none => (.newId fresh, some fresh)

/-- Token update after a successful call (`query` at
claude_code_client.rs:329-331, `query_streaming` at 494-496): the stored
token becomes the result event's session_id only when `new_session_id`
was generated; otherwise it is left unchanged. -/
def query_session_update (stored : Option String) (fresh : String)
    (parsedSessionId : String) : Option String :=
  match (build_base_command_session stored fresh).2 with
  | some _ => some parsedSessionId
  | none => stored

/-- `reset_session` (claude_code_client.rs:84-86). -/
def reset_session (_stored : Option String) : Option String := none

/-- C10: the stored session token is written only by the first call: with
no stored token the fresh UUID is passed via --session-id and the result
event's session_id is stored; with a stored token the call passes
--resume with it and leaves it unchanged whatever session_id the CLI
returns — so any sequence of later calls preserves the token — and
reset_session clears it to None. -/
theorem c10_session_token_lifecycle :
    (∀ fresh parsed : String,
      build_base_command_session none fresh = (.newId fresh, some fresh) ∧
      query_session_update none fresh parsed = some parsed) ∧
    (∀ t fresh parsed : String,
      build_base_command_session (some t) fresh = (.resume t, none) ∧
      query_session_update (some t) fresh parsed = some t) ∧
    (∀ t : String, ∀ calls : List (String × String),
      List.foldl (fun st c => query_session_update st c.1 c.2)
        (some t) calls = some t) ∧
    (∀ stored : Option String, reset_session stored = none) := by
  refine ⟨fun fresh parsed => ⟨rfl, rfl⟩, fun t fresh parsed => ⟨rfl, rfl⟩,
    ?_, fun stored => rfl⟩
  intro t calls
  induction calls with
  | nil => rfl
  | cons c rest ih => exact ih

/-! ## Review loop (src/ui/app.rs:129 and 1654-1688) -/

/-- `ReviewStatus` of the reviewer's structured response. -/
inductive ReviewStatus where
  | approved
  | requestChanges
deriving DecidableEq

/-- What handle_review_result does next: finalize the review and proceed
to rebase/merge, or re-invoke the coder session with the review
comment. -/
inductive ReviewAction where
  | finalizeAndProceed
  | startCodingRevision
deriving DecidableEq

/-- `MAX_REVIEW_ITERATIONS` (app.rs:129). -/
def MAX_REVIEW_ITERATIONS : Nat := 3

/-- Embedding of `handle_review_result` (app.rs:1654-1688): the iteration
count is incremented on every reviewer response; Approved finalizes;
RequestChanges finalizes (auto-approve) once the count has reached
MAX_REVIEW_ITERATIONS and otherwise starts a coding revision. -/
def handle_review_result (iteration_count : Nat) (result : ReviewStatus) :
    Nat × ReviewAction :=
  let ic := iteration_count + 1
  match result with
  | .approved => (ic, .finalizeAndProceed)
  | .requestChanges =>
    if MAX_REVIEW_ITERATIONS ≤ ic then (ic, .finalizeAndProceed)
    else (ic, .startCodingRevision)

/-- The review loop over a stream of reviewer responses: handle responses
until one finalizes; returns the final iteration count. -/
def runReviewLoop : Nat → List ReviewStatus → Nat
  | ic, [] => ic
  | ic, r :: rest =>
    match handle_review_result ic r with
    | (ic2, .finalizeAndProceed) => ic2
    | (ic2, .startCodingRevision) => runReviewLoop ic2 rest

/-- Every iteration count reached while handling a stream of responses. -/
def reviewCounts : Nat → List ReviewStatus → List Nat
  | _, [] => []
  | ic, r :: rest =>
    match handle_review_result ic r with
    | (ic2, .finalizeAndProceed) => [ic2]
    | (ic2, .startCodingRevision) => ic2 :: reviewCounts ic2 rest

theorem reviewCounts_bounded (rs : List ReviewStatus) :
    ∀ ic, ic < MAX_REVIEW_ITERATIONS →
      ∀ c ∈ reviewCounts ic rs, c ≤ MAX_REVIEW_ITERATIONS := by
  induction rs with
  | nil => intro ic _ c hc; cases hc
  | cons r rest ih =>
    intro ic hic c hc
    rw [reviewCounts] at hc
    cases r with
    | approved =>
      rw [handle_review_result] at hc
      rcases List.mem_singleton.mp hc with rfl
      omega
    | requestChanges =>
      rw [handle_review_result] at hc
      by_cases hmax : MAX_REVIEW_ITERATIONS ≤ ic + 1
      · simp only [if_pos hmax] at hc
        rcases List.mem_singleton.mp hc with rfl
        omega
      · simp only [if_neg hmax] at hc
        rcases List.mem_cons.mp hc with rfl | hc2
        · omega
        · exact ih (ic + 1) (by omega) c hc2

theorem runReviewLoop_bounded (rs : List ReviewStatus) :
    ∀ ic, ic < MAX_REVIEW_ITERATIONS →
      runReviewLoop ic rs ≤ MAX_REVIEW_ITERATIONS := by
  induction rs with
  | nil => intro ic hic; rw [runReviewLoop]; omega
  | cons r rest ih =>
    intro ic hic
    rw [runReviewLoop]
    cases r with
    | approved =>
      rw [handle_review_result]
      simp only []
      omega
    | requestChanges =>
      rw [handle_review_result]
      by_cases hmax : MAX_REVIEW_ITERATIONS ≤ ic + 1
      · simp only [if_pos hmax]
        omega
      · simp only [if_neg hmax]
        exact ih (ic + 1) (by omega)

/-- C3: starting from iteration count 0, every count reached and the
final count stay at or below MAX_REVIEW_ITERATIONS = 3; a RequestChanges
response with fewer than 3 completed iterations starts a coding revision
(the coder is re-invoked); and the third consecutive RequestChanges
response is handled exactly like an Approved response: finalize and
proceed to rebase/merge without re-invoking the coder. -/
theorem c3_review_iterations_bounded :
    (∀ rs : List ReviewStatus,
      (∀ c ∈ reviewCounts 0 rs, c ≤ MAX_REVIEW_ITERATIONS) ∧
      runReviewLoop 0 rs ≤ MAX_REVIEW_ITERATIONS) ∧
    (∀ ic : Nat, ic + 1 < MAX_REVIEW_ITERATIONS →
      handle_review_result ic .requestChanges = (ic + 1, .startCodingRevision)) ∧
    (∀ ic : Nat, MAX_REVIEW_ITERATIONS ≤ ic + 1 →
      handle_review_result ic .requestChanges = (ic + 1, .finalizeAndProceed) ∧
      (handle_review_result ic .requestChanges).2 =
        (handle_review_result ic .approved).2) ∧
    handle_review_result 2 .requestChanges = handle_review_result 2 .approved := by
  refine ⟨?_, ?_, ?_, rfl⟩
  · intro rs
    exact ⟨reviewCounts_bounded rs 0 (by decide),
      runReviewLoop_bounded rs 0 (by decide)⟩
  · intro ic hic
    rw [handle_review_result]
    simp only [if_neg (by omega : ¬ MAX_REVIEW_ITERATIONS ≤ ic + 1)]
  · intro ic hic
    rw [handle_review_result, handle_review_result]
    simp [hic]

/-! ## Build/test execution (src/ui/coding.rs:1295-1339) -/

/-- The detected or user-supplied build/test command pair. -/
structure BuildTestCommands where
  build : String
  test : String
deriving DecidableEq

/-- Classification of a build/test verification run (coding.rs). -/
inductive BuildTestOutcome where
  | Success
  | BuildFailed (output : String)
  | TestFailed (output : String)
deriving DecidableEq

/-- A child-process invocation: program, arguments, working directory. -/
structure Invocation where
  program : String
  args : List String
  cwd : String
deriving DecidableEq

/-- Captured state of a finished child process. -/
structure CmdOutput where
  success : Bool
  stdout : String
  stderr : String
deriving DecidableEq

/-- The invocation run_shell_command builds (coding.rs:1325-1328): the
command wrapped by `timeout --signal=TERM --kill-after=15s 180s sh -c`,
run in the given working directory. -/
def timeoutInvocation (working_dir command : String) : Invocation :=
  ⟨"timeout",
   ["--signal=TERM", "--kill-after=15s", "180s", "sh", "-c", command],
   working_dir⟩

/-- Combined capture (coding.rs:1333). -/
def combined_output (o : CmdOutput) : String :=
  "--- stdout ---\n" ++ o.stdout ++ "\n--- stderr ---\n" ++ o.stderr

/-- Embedding of run_shell_command (coding.rs:1321-1339).  `exec`
abstracts the operating system running one invocation
(`Command::output()`); `.error` models a spawn failure.  Returns the
(success flag, combined output) result together with the list of
invocations made. -/
def run_shell_command (exec : Invocation → Except String CmdOutput)
    (working_dir command : String) :
    Except String (Bool × String) × List Invocation :=
  match exec (timeoutInvocation working_dir command) with
  | .error e =>
    (.error ("failed to execute " ++ command ++ ": " ++ e),
      [timeoutInvocation working_dir command])
  | .ok o =>
    (.ok (o.success, combined_output o), [timeoutInvocation working_dir command])

/-- Embedding of run_build_and_test (coding.rs:1295-1314): run the build
command; a non-zero exit yields BuildFailed with the captured output and
the test command is never run; otherwise run the test command, a non-zero
exit yielding TestFailed, and otherwise Success. -/
def run_build_and_test (exec : Invocation → Except String CmdOutput)
    (worktree : String) (commands : BuildTestCommands) :
    Except String BuildTestOutcome × List Invocation :=
  match run_shell_command exec worktree commands.build with
  | (.error e, invs) => (.error e, invs)
  | (.ok (bsucc, bout), invs) =>
    if bsucc = false then (.ok (.BuildFailed bout), invs)
    else
      match run_shell_command exec worktree commands.test with
      | (.error e, invs2) => (.error e, invs ++ invs2)
      | (.ok (tsucc, tout), invs2) =>
        if tsucc = false then (.ok (.TestFailed tout), invs ++ invs2)
        else (.ok .Success, invs ++ invs2)

/-- C5: the build command runs first, wrapped by
`timeout --signal=TERM --kill-after=15s 180s sh -c` in the worktree with
combined stdout+stderr captured; on non-zero build exit the outcome is
BuildFailed with that output and the test command is never invoked; on
build success the test command runs under the same wrapper, a non-zero
exit yielding TestFailed and a zero exit Success. -/
theorem c5_run_build_and_test (exec : Invocation → Except String CmdOutput)
    (wt : String) (cmds : BuildTestCommands) (bo : CmdOutput)
    (hb : exec (timeoutInvocation wt cmds.build) = .ok bo) :
    (timeoutInvocation wt cmds.build).program = "timeout" ∧
    (timeoutInvocation wt cmds.build).args =
      ["--signal=TERM", "--kill-after=15s", "180s", "sh", "-c", cmds.build] ∧
    (timeoutInvocation wt cmds.build).cwd = wt ∧
    (bo.success = false →
      run_build_and_test exec wt cmds =
        (.ok (.BuildFailed (combined_output bo)),
          [timeoutInvocation wt cmds.build])) ∧
    (∀ t2 : CmdOutput, exec (timeoutInvocation wt cmds.test) = .ok t2 →
      bo.success = true →
      (t2.success = false →
        run_build_and_test exec wt cmds =
          (.ok (.TestFailed (combined_output t2)),
            [timeoutInvocation wt cmds.build, timeoutInvocation wt cmds.test])) ∧
      (t2.success = true →
        run_build_and_test exec wt cmds =
          (.ok .Success,
            [timeoutInvocation wt cmds.build, timeoutInvocation wt cmds.test]))) := by
  refine ⟨rfl, rfl, rfl, ?_, ?_⟩
  · intro hbf
    simp [run_build_and_test, run_shell_command, hb, hbf]
  · intro t2 ht hbs
    constructor
    · intro htf
      simp [run_build_and_test, run_shell_command, hb, hbs, ht, htf]
    · intro hts
      simp [run_build_and_test, run_shell_command, hb, hbs, ht, hts]

/-- A concrete operating system for the witness: the build invocation
succeeds, the test invocation fails. -/
def execDemo : Invocation → Except String CmdOutput :=
  fun inv =>
    if inv.args.getLast? = some "make build" then .ok ⟨true, "built ok", ""⟩
    else .ok ⟨false, "1 test failed", "assertion error"⟩

theorem c5_run_build_and_test_witness :
    run_build_and_test execDemo "/wt" ⟨"make build", "make test"⟩ =
      (.ok (.TestFailed (combined_output ⟨false, "1 test failed", "assertion error"⟩)),
        [timeoutInvocation "/wt" "make build",
         timeoutInvocation "/wt" "make test"]) :=
  ((c5_run_build_and_test execDemo "/wt" ⟨"make build", "make test"⟩
      ⟨true, "built ok", ""⟩ rfl).2.2.2.2
    ⟨false, "1 test failed", "assertion error"⟩ rfl rfl).1 rfl

/-! ## Build-system detection (src/ui/coding.rs:1240-1293, src/ui/app.rs:1855-1945) -/

/-- The relevant state of the worktree filesystem for detection: the
Makefile content when it exists and is readable, whether Cargo.toml and
go.mod exist, and the parsed package.json when it exists, is readable and
is valid JSON. -/
structure WorktreeFs where
  makefile : Option String
  cargoTomlExists : Bool
  packageJson : Option Json
  goModExists : Bool

/-- The Makefile probe (coding.rs:1241-1253): a readable Makefile with
some line starting with "build:" and some line starting with "test:". -/
def makefile_has_both (fs : WorktreeFs) : Bool :=
  match fs.makefile with
  | some content =>
    (rustLines content).any (fun l => l.startsWith "build:") &&
    (rustLines content).any (fun l => l.startsWith "test:")
  | none => false

/-- Embedding of detect_npm_commands (coding.rs:1276-1293): a parsed
package.json with a `scripts` member holding both `build` and `test`. -/
def detect_npm_commands (fs : WorktreeFs) : Option BuildTestCommands :=
  match fs.packageJson with
  | none => none
  | some parsed =>
    match parsed.get? "scripts" with
    | none => none
    | some scripts =>
      if (scripts.get? "build").isSome && (scripts.get? "test").isSome then
        some ⟨"npm run build", "npm test"⟩
      else none

/-- Embedding of detect_build_commands (coding.rs:1240-1274): probe
Makefile targets, then Cargo.toml, then package.json scripts, then
go.mod, in that order. -/
def detect_build_commands (fs : WorktreeFs) : Option BuildTestCommands :=
  if makefile_has_both fs then some ⟨"make build", "make test"⟩
  else if fs.cargoTomlExists then some ⟨"cargo build", "cargo test"⟩
  else
    match detect_npm_commands fs with
    | some commands => some commands
    | none =>
      if fs.goModExists then some ⟨"go build ./...", "go test ./..."⟩
      else none

/-- What verify_build_and_test does next. -/
inductive VerifyAction where
  | runBuildTest (commands : BuildTestCommands)
  | promptUser
deriving DecidableEq

/-- Decision slice of verify_build_and_test (app.rs:1855-1894): cached
commands are reused; otherwise detection runs, and when it returns
nothing the user is asked for the commands (ask_build_command). -/
def verify_build_and_test (cached : Option BuildTestCommands)
    (fs : WorktreeFs) : VerifyAction :=
  match cached with
  | some commands => .runBuildTest commands
  | none =>
    match detect_build_commands fs with
    | some commands => .runBuildTest commands
    | none => .promptUser

/-- The two prompt phases of the interactive command input
(app.rs:1906,1921-1944). -/
inductive BuildTestCommandPhase where
  | BuildCommand
  | TestCommand
deriving DecidableEq

/-- Embedding of submit_build_test_command (app.rs:1912-1945): an empty
trimmed input is ignored; the build phase stores the build command and
moves to the test phase; the test phase stores the test command and
starts execution (the Bool of the result). -/
def submit_build_test_command (phase : BuildTestCommandPhase)
    (commands : Option BuildTestCommands) (raw : String) :
    BuildTestCommandPhase × Option BuildTestCommands × Bool :=
  if raw.trim.isEmpty then (phase, commands, false)
  else
    match phase with
    | .BuildCommand => (.TestCommand, some ⟨raw.trim, ""⟩, false)
    | .TestCommand =>
      (.TestCommand,
       (match commands with
        | some c => some ⟨c.build, raw.trim⟩
        | none => commands),
       true)

theorem detect_npm_commands_eq (fs : WorktreeFs) (c : BuildTestCommands)
    (h : detect_npm_commands fs = some c) :
    c = ⟨"npm run build", "npm test"⟩ := by
  rw [detect_npm_commands] at h
  rcases hp : fs.packageJson with _ | parsed
  · rw [hp] at h
    simp at h
  · rw [hp] at h
    simp only [] at h
    rcases hs : parsed.get? "scripts" with _ | scripts
    · rw [hs] at h
      simp at h
    · rw [hs] at h
      simp only [] at h
      split at h
      · exact (Option.some_inj.mp h).symm
      · cases h

/-- C6: detection probes in strict priority order — a Makefile with both
`build:` and `test:` lines wins over everything; otherwise Cargo.toml;
otherwise a package.json with both scripts; otherwise go.mod; with no
match detection returns nothing and verify_build_and_test prompts the
user, who is then asked for the build command and the test command in
turn. -/
theorem c6_detect_build_commands :
    (∀ fs : WorktreeFs, makefile_has_both fs = true →
      detect_build_commands fs = some ⟨"make build", "make test"⟩) ∧
    (∀ fs : WorktreeFs, makefile_has_both fs = false →
      fs.cargoTomlExists = true →
      detect_build_commands fs = some ⟨"cargo build", "cargo test"⟩) ∧
    (∀ (fs : WorktreeFs) (c : BuildTestCommands), makefile_has_both fs = false →
      fs.cargoTomlExists = false → detect_npm_commands fs = some c →
      detect_build_commands fs = some c ∧ c = ⟨"npm run build", "npm test"⟩) ∧
    (∀ fs : WorktreeFs, makefile_has_both fs = false →
      fs.cargoTomlExists = false → detect_npm_commands fs = none →
      fs.goModExists = true →
      detect_build_commands fs = some ⟨"go build ./...", "go test ./..."⟩) ∧
    (∀ fs : WorktreeFs, makefile_has_both fs = false →
      fs.cargoTomlExists = false → detect_npm_commands fs = none →
      fs.goModExists = false →
      detect_build_commands fs = none ∧
      verify_build_and_test none fs = .promptUser) ∧
    (∀ (b t : String), b.trim.isEmpty = false → t.trim.isEmpty = false →
      submit_build_test_command .BuildCommand none b =
        (.TestCommand, some ⟨b.trim, ""⟩, false) ∧
      submit_build_test_command .TestCommand (some ⟨b.trim, ""⟩) t =
        (.TestCommand, some ⟨b.trim, t.trim⟩, true)) := by
  refine ⟨?_, ?_, ?_, ?_, ?_, ?_⟩
  · intro fs h
    simp [detect_build_commands, h]
  · intro fs h1 h2
    simp [detect_build_commands, h1, h2]
  · intro fs c h1 h2 h3
    refine ⟨?_, detect_npm_commands_eq fs c h3⟩
    simp [detect_build_commands, h1, h2, h3]
  · intro fs h1 h2 h3 h4
    simp [detect_build_commands, h1, h2, h3, h4]
  · intro fs h1 h2 h3 h4
    constructor
    · simp [detect_build_commands, h1, h2, h3, h4]
    · have hd : detect_build_commands fs = none := by
        simp [detect_build_commands, h1, h2, h3, h4]
      simp [verify_build_and_test, hd]
  · intro b t hb ht
    constructor
    · simp [submit_build_test_command, hb]
    · simp [submit_build_test_command, ht]

/-! ## Per-task branch/worktree lifecycle (src/ui/app.rs)

The per-task sub-state-machine of the coding phase, embedded as a trace of
the git-and-journal side effects it performs, in order.  Environment
choices (agent outcomes, git results) are an explicit `TaskEnv`.  The
pre-review shortcut paths that skip the review (commit-hash fetch failure,
report save failure, reviewer-client creation failure, missing coder
session on revision, app.rs:1545-1619 and 1724-1733) all call
finalize_review_and_proceed and produce the same event trace as an
Approved review at that point, which the `approved` environment outcome
covers. -/

/-- `CodingTaskStatus` (terminal status of a task). -/
inductive CodingTaskStatus where
  | ImplementationSuccess
  | ImplementationBlocked
deriving DecidableEq

/-- A git or journal side effect of the per-task state machine. -/
inductive TaskEvent where
  | createTaskBranch (ok : Bool)
  | createWorktree (ok : Bool)
  | removeWorktree
  | deleteBranch
  | abortRebase
  | commitReportInWorktree
  | ffMerge (ok : Bool)
  | recordOutcome (status : CodingTaskStatus)
deriving DecidableEq

/-- Result of the coding agent call (or its transport). -/
inductive CodingOutcome where
  | fatalError
  | blocked
  | success
deriving DecidableEq

/-- Result of one coding revision requested by the reviewer. -/
inductive RevisionOutcome where
  | fatalError
  | blocked
  | success
deriving DecidableEq

/-- One review iteration: reviewer transport failure, approval, or a
change request together with how the revision then ends. -/
inductive ReviewIterOutcome where
  | fatalError
  | approved
  | requestChanges (revision : RevisionOutcome)
deriving DecidableEq

/-- `rebase_onto_integration` outcome (coding.rs RebaseOutcome plus the
error case). -/
inductive RebaseOutcomeEnv where
  | success
  | conflict
  | error
deriving DecidableEq

/-- Conflict-resolution agent outcome. -/
inductive ConflictResolutionOutcome where
  | fatalError
  | resolved
  | failed
deriving DecidableEq

/-- One build/test verification attempt: spawn error, full success, or a
failed build or test. -/
inductive BuildTestEnvOutcome where
  | execError
  | success
  | buildFailed
  | testFailed
deriving DecidableEq

/-- Repair agent outcome. -/
inductive RepairOutcome where
  | fatalError
  | fixed
  | fixFailed
deriving DecidableEq

/-- All environment choices governing one task's path through the
sub-state-machine. -/
structure TaskEnv where
  branchOk : Bool
  worktreeOk : Bool
  clientOk : Bool
  codingOutcome : CodingOutcome
  reviews : List ReviewIterOutcome
  rebase : RebaseOutcomeEnv
  conflictClientOk : Bool
  conflictResolution : ConflictResolutionOutcome
  buildTestFirst : BuildTestEnvOutcome
  repairClientOk : Bool
  repair : RepairOutcome
  buildTestRetry : BuildTestEnvOutcome
  ffMergeOk : Bool

/-- `cleanup_current_task_worktree` (app.rs:1842-1853) with a live
worktree: remove the worktree, then delete the task branch. -/
def cleanupWorktreeEvents : List TaskEvent :=
  [.removeWorktree, .deleteBranch]

/-- Cleanup followed by recording a BLOCKED outcome — the common tail of
every blocked path after worktree creation. -/
def blockedCleanupTrace : List TaskEvent :=
  cleanupWorktreeEvents ++ [.recordOutcome .ImplementationBlocked]

/-- `ff_merge_and_advance` (app.rs:2154-2217): commit the report in the
worktree, fast-forward merge; on either merge result clean up the
worktree and branch, then record the outcome. -/
def runFFMergePhase (env : TaskEnv) : List TaskEvent :=
  .commitReportInWorktree ::
    (if env.ffMergeOk then
      .ffMerge true :: cleanupWorktreeEvents ++
        [.recordOutcome .ImplementationSuccess]
    else
      .ffMerge false :: cleanupWorktreeEvents ++
        [.recordOutcome .ImplementationBlocked])

/-- The second (post-repair, is_retry) verification attempt
(app.rs:1998-2049): success merges; any failure blocks the task. -/
def runBuildTestRetryPhase (env : TaskEnv) : List TaskEvent :=
  match env.buildTestRetry with
  | .execError => blockedCleanupTrace
  | .success => runFFMergePhase env
  | .buildFailed => blockedCleanupTrace
  | .testFailed => blockedCleanupTrace

/-- The repair agent (app.rs:2051-2152): a missing session, a transport
error or FixFailed blocks the task; Fixed re-verifies. -/
def runRepairPhase (env : TaskEnv) : List TaskEvent :=
  if env.repairClientOk = false then blockedCleanupTrace
  else
    match env.repair with
    | .fatalError => blockedCleanupTrace
    | .fixFailed => blockedCleanupTrace
    | .fixed => runBuildTestRetryPhase env

/-- The first verification attempt (app.rs:1998-2049): success merges; a
build or test failure starts the repair agent. -/
def runBuildTestFirstPhase (env : TaskEnv) : List TaskEvent :=
  match env.buildTestFirst with
  | .execError => blockedCleanupTrace
  | .success => runFFMergePhase env
  | .buildFailed => runRepairPhase env
  | .testFailed => runRepairPhase env

/-- `rebase_and_merge_task` and conflict resolution (app.rs:1768-1810 and
2219-2332): success verifies; a non-conflict error blocks; a conflict
runs the resolution agent — resolved verifies, failure aborts the rebase
and blocks, a transport error blocks. -/
def runRebasePhase (env : TaskEnv) : List TaskEvent :=
  match env.rebase with
  | .success => runBuildTestFirstPhase env
  | .error => blockedCleanupTrace
  | .conflict =>
    if env.conflictClientOk = false then .abortRebase :: blockedCleanupTrace
    else
      match env.conflictResolution with
      | .resolved => runBuildTestFirstPhase env
      | .failed => .abortRebase :: blockedCleanupTrace
      | .fatalError => blockedCleanupTrace

/-- The review loop (app.rs:1654-1688 driving 1535-1766): approval or
iteration exhaustion finalizes into the rebase phase; a blocked or failed
revision blocks the task; a successful revision reviews again. -/
def runReviewPhase (env : TaskEnv) : Nat → List ReviewIterOutcome → List TaskEvent
  | _, [] => runRebasePhase env
  | ic, o :: rest =>
    match o with
    | .fatalError => blockedCleanupTrace
    | .approved => runRebasePhase env
    | .requestChanges revision =>
      if MAX_REVIEW_ITERATIONS ≤ ic + 1 then runRebasePhase env
      else
        match revision with
        | .fatalError => blockedCleanupTrace
        | .blocked => blockedCleanupTrace
        | .success => runReviewPhase env (ic + 1) rest

/-- `start_next_coding_task` (app.rs:1364-1488) plus the dispatch of the
coding agent result (app.rs:1490-1533 and 1812-1840): branch then
worktree creation, client creation, the coding agent, then the review
phase. -/
def runTask (env : TaskEnv) : List TaskEvent :=
  if env.branchOk = false then
    [.createTaskBranch false, .recordOutcome .ImplementationBlocked]
  else
    .createTaskBranch true ::
      (if env.worktreeOk = false then
        [.createWorktree false, .deleteBranch,
          .recordOutcome .ImplementationBlocked]
      else
        .createWorktree true ::
          (if env.clientOk = false then blockedCleanupTrace
          else
            match env.codingOutcome with
            | .fatalError => blockedCleanupTrace
            | .blocked => blockedCleanupTrace
            | .success => runReviewPhase env 0 env.reviews))

/-- Whether an event is an outcome record. -/
def TaskEvent.isRecord : TaskEvent → Bool
  | .recordOutcome _ => true
  | _ => false

/-- A trace that ends in a recordOutcome event, with no other record
event, and with both worktree removal and branch deletion before it. -/
def endsWithRecordAfterCleanup (t : List TaskEvent) : Prop :=
  ∃ (pre : List TaskEvent) (st : CodingTaskStatus),
    t = pre ++ [TaskEvent.recordOutcome st] ∧
    TaskEvent.removeWorktree ∈ pre ∧
    TaskEvent.deleteBranch ∈ pre ∧
    ∀ e ∈ pre, e.isRecord = false

theorem blockedCleanupTrace_ends : endsWithRecordAfterCleanup blockedCleanupTrace :=
  ⟨cleanupWorktreeEvents, .ImplementationBlocked, rfl, by decide, by decide,
    by decide⟩

theorem abort_blockedCleanupTrace_ends :
    endsWithRecordAfterCleanup (TaskEvent.abortRebase :: blockedCleanupTrace) :=
  ⟨[.abortRebase, .removeWorktree, .deleteBranch], .ImplementationBlocked, rfl,
    by decide, by decide, by decide⟩

theorem runFFMergePhase_ends (env : TaskEnv) :
    endsWithRecordAfterCleanup (runFFMergePhase env) := by
  by_cases h : env.ffMergeOk
  · exact ⟨[.commitReportInWorktree, .ffMerge true, .removeWorktree,
      .deleteBranch], .ImplementationSuccess,
      by simp [runFFMergePhase, h, cleanupWorktreeEvents],
      by decide, by decide, by decide⟩
  · exact ⟨[.commitReportInWorktree, .ffMerge false, .removeWorktree,
      .deleteBranch], .ImplementationBlocked,
      by simp [runFFMergePhase, h, cleanupWorktreeEvents],
      by decide, by decide, by decide⟩

theorem runBuildTestRetryPhase_ends (env : TaskEnv) :
    endsWithRecordAfterCleanup (runBuildTestRetryPhase env) := by
  rcases h : env.buildTestRetry with _ | _ | _ | _ <;>
    simp only [runBuildTestRetryPhase, h]
  · exact blockedCleanupTrace_ends
  · exact runFFMergePhase_ends env
  · exact blockedCleanupTrace_ends
  · exact blockedCleanupTrace_ends

theorem runRepairPhase_ends (env : TaskEnv) :
    endsWithRecordAfterCleanup (runRepairPhase env) := by
  by_cases hc : env.repairClientOk = false
  · rw [runRepairPhase, if_pos hc]
    exact blockedCleanupTrace_ends
  · rcases h : env.repair with _ | _ | _ <;>
      simp only [runRepairPhase, if_neg hc, h]
    · exact blockedCleanupTrace_ends
    · exact runBuildTestRetryPhase_ends env
    · exact blockedCleanupTrace_ends

theorem runBuildTestFirstPhase_ends (env : TaskEnv) :
    endsWithRecordAfterCleanup (runBuildTestFirstPhase env) := by
  rcases h : env.buildTestFirst with _ | _ | _ | _ <;>
    simp only [runBuildTestFirstPhase, h]
  · exact blockedCleanupTrace_ends
  · exact runFFMergePhase_ends env
  · exact runRepairPhase_ends env
  · exact runRepairPhase_ends env

theorem runRebasePhase_ends (env : TaskEnv) :
    endsWithRecordAfterCleanup (runRebasePhase env) := by
  rcases h : env.rebase with _ | _ | _
  · simp only [runRebasePhase, h]
    exact runBuildTestFirstPhase_ends env
  · simp only [runRebasePhase, h]
    by_cases hcc : env.conflictClientOk = false
    · rw [if_pos hcc]
      exact abort_blockedCleanupTrace_ends
    · rw [if_neg hcc]
      rcases hr : env.conflictResolution with _ | _ | _ <;> simp only [hr]
      · exact blockedCleanupTrace_ends
      · exact runBuildTestFirstPhase_ends env
      · exact abort_blockedCleanupTrace_ends
  · simp only [runRebasePhase, h]
    exact blockedCleanupTrace_ends

theorem runReviewPhase_ends (env : TaskEnv) (outcomes : List ReviewIterOutcome) :
    ∀ ic : Nat, endsWithRecordAfterCleanup (runReviewPhase env ic outcomes) := by
  induction outcomes with
  | nil => intro ic; exact runRebasePhase_ends env
  | cons o rest ih =>
    intro ic
    show endsWithRecordAfterCleanup
      (match o with
      | .fatalError => blockedCleanupTrace
      | .approved => runRebasePhase env
      | .requestChanges revision =>
        if MAX_REVIEW_ITERATIONS ≤ ic + 1 then runRebasePhase env
        else
          match revision with
          | .fatalError => blockedCleanupTrace
          | .blocked => blockedCleanupTrace
          | .success => runReviewPhase env (ic + 1) rest)
    cases o with
    | fatalError => exact blockedCleanupTrace_ends
    | approved => exact runRebasePhase_ends env
    | requestChanges revision =>
      show endsWithRecordAfterCleanup
        (if MAX_REVIEW_ITERATIONS ≤ ic + 1 then runRebasePhase env
        else
          match revision with
          | .fatalError => blockedCleanupTrace
          | .blocked => blockedCleanupTrace
          | .success => runReviewPhase env (ic + 1) rest)
      by_cases hic : MAX_REVIEW_ITERATIONS ≤ ic + 1
      · rw [if_pos hic]
        exact runRebasePhase_ends env
      · rw [if_neg hic]
        cases revision
        · exact blockedCleanupTrace_ends
        · exact blockedCleanupTrace_ends
        · exact ih (ic + 1)

/-- C4: on every terminal path of the per-task state machine the trace
ends with exactly one outcome record, and before that record: a
successfully created worktree has been removed and the task branch
deleted, and a successfully created task branch has been deleted. -/
theorem c4_cleanup_before_record (env : TaskEnv) :
    ∃ (pre : List TaskEvent) (st : CodingTaskStatus),
      runTask env = pre ++ [TaskEvent.recordOutcome st] ∧
      (TaskEvent.createWorktree true ∉ pre ∨
        (TaskEvent.removeWorktree ∈ pre ∧ TaskEvent.deleteBranch ∈ pre)) ∧
      (TaskEvent.createTaskBranch true ∉ pre ∨ TaskEvent.deleteBranch ∈ pre) ∧
      (∀ e ∈ pre, e.isRecord = false) := by
  rw [runTask]
  by_cases hb : env.branchOk = false
  · rw [if_pos hb]
    exact ⟨[.createTaskBranch false], .ImplementationBlocked, rfl,
      Or.inl (by decide), Or.inl (by decide), by decide⟩
  · rw [if_neg hb]
    by_cases hw : env.worktreeOk = false
    · rw [if_pos hw]
      exact ⟨[.createTaskBranch true, .createWorktree false, .deleteBranch],
        .ImplementationBlocked, rfl, Or.inl (by decide), Or.inr (by decide),
        by decide⟩
    · rw [if_neg hw]
      have hrest : endsWithRecordAfterCleanup
          (if env.clientOk = false then blockedCleanupTrace
          else
            match env.codingOutcome with
            | .fatalError => blockedCleanupTrace
            | .blocked => blockedCleanupTrace
            | .success => runReviewPhase env 0 env.reviews) := by
        by_cases hcl : env.clientOk = false
        · rw [if_pos hcl]
          exact blockedCleanupTrace_ends
        · rw [if_neg hcl]
          rcases hco : env.codingOutcome with _ | _ | _ <;> simp only [hco]
          · exact blockedCleanupTrace_ends
          · exact blockedCleanupTrace_ends
          · exact runReviewPhase_ends env env.reviews 0
      obtain ⟨pre, st, heq, hrm, hdel, hnorec⟩ := hrest
      refine ⟨.createTaskBranch true :: .createWorktree true :: pre, st, ?_,
        Or.inr ⟨?_, ?_⟩, Or.inr ?_, ?_⟩
      · rw [heq]; rfl
      · exact List.mem_cons_of_mem _ (List.mem_cons_of_mem _ hrm)
      · exact List.mem_cons_of_mem _ (List.mem_cons_of_mem _ hdel)
      · exact List.mem_cons_of_mem _ (List.mem_cons_of_mem _ hdel)
      · intro e he
        rcases List.mem_cons.mp he with rfl | he2
        · rfl
        · rcases List.mem_cons.mp he2 with rfl | he3
          · rfl
          · exact hnorec e he3

end Bear
